import Mathlib

/-!
Verification of the trajectory-integration and importance-sampling kernels of
pism-ragis (src/pismragis/trajectories.py and src/analysis/analyze_spatial.py),
in exact rational arithmetic.  Velocity fields are 2D arrays of rationals on
rectilinear axes; points are pairs of rationals.  The bilinear interpolation
and RKF45 stepping live in pismragis/interpolation.py, which is not part of
the sources here; they are modelled from the spec (sections 4.2.1 and 4.2.2),
as is the importance sampler of pism_ragis.filtering (section 4.1).
-/

/-- A 2D gridded field: outer list indexed by the y axis (rows), inner by x. -/
abbrev Grid : Type := List (List ℚ)

/-- A particle position. -/
abbrev Pt : Type := ℚ × ℚ

/-- Elementwise negation of a gridded field (the numpy expression -V). -/
def negGrid (V : Grid) : Grid := V.map (fun row => row.map (fun v => -v))

/-- Value stored at row j, column i of a gridded field, if in range. -/
def gridAt (V : Grid) (j i : ℕ) : Option ℚ := (V.get? j).bind (fun row => row.get? i)

/-- Modelled from the spec (4.2.1): locate the enclosing grid cell on one
sorted axis.  Returns the cell index i with axis i <= p <= axis (i+1), and
none when p lies outside the axis range (no extrapolation or clamping). -/
def cellIndex : List ℚ → ℚ → Option ℕ
  | [], _ => none
  | [_], _ => none
  | x0 :: x1 :: rest, p =>
    if p < x0 then none
    else if p ≤ x1 then some 0
    else (cellIndex (x1 :: rest) p).map (fun i => i + 1)

/-- Modelled from the spec (4.2.1): bilinear interpolation of one scalar
field component at a query point; undefined (none) outside the axis ranges,
otherwise interpolated from the four corner values of the enclosing cell. -/
def bilinear (V : Grid) (x y : List ℚ) (px py : ℚ) : Option ℚ := do
  let i ← cellIndex x px
  let j ← cellIndex y py
  let x1 ← x.get? i
  let x2 ← x.get? (i + 1)
  let y1 ← y.get? j
  let y2 ← y.get? (j + 1)
  let f11 ← gridAt V j i
  let f21 ← gridAt V j (i + 1)
  let f12 ← gridAt V (j + 1) i
  let f22 ← gridAt V (j + 1) (i + 1)
  pure ((f11 * (x2 - px) * (y2 - py) + f21 * (px - x1) * (y2 - py)
      + f12 * (x2 - px) * (py - y1) + f22 * (px - x1) * (py - y1))
      / ((x2 - x1) * (y2 - y1)))

/-- Modelled from the spec (4.2.1): the velocity vector interpolated at one
query point; undefined when either component is undefined.  (The source's
velocity_at_point maps this over a sequence of points; the claims only need
the single-point form, which is the right-hand side of the ODE.) -/
def velocity_at_point (Vx Vy : Grid) (x y : List ℚ) (p : Pt) : Option Pt := do
  let vx ← bilinear Vx x y p.1 p.2
  let vy ← bilinear Vy x y p.1 p.2
  pure (vx, vy)

/-- Scale a 2D vector. -/
def psmul (c : ℚ) (v : Pt) : Pt := (c * v.1, c * v.2)

/-- Add two 2D vectors. -/
def padd (a b : Pt) : Pt := (a.1 + b.1, a.2 + b.2)

/-- Squared Euclidean distance between two points. -/
def distSq (a b : Pt) : ℚ := (a.1 - b.1) ^ 2 + (a.2 - b.2) ^ 2

/-- Modelled from the spec (4.2.2): one embedded Runge-Kutta-Fehlberg 4(5)
step of pismragis/interpolation.py (not among the sources).  Six velocity
stages with the standard Fehlberg tableau produce a 4th- and a 5th-order
position; the 5th-order position is returned together with the local error
estimate, and the step fails (none) as soon as any stage's interpolated
velocity is undefined.  The spec's error estimate is the Euclidean distance
between the two embedded estimates; to stay in exact rational arithmetic we
model its square, which is zero exactly when the distance is zero and is all
the claims inspect. -/
def interpolate_rkf (Vx Vy : Grid) (x y : List ℚ) (p : Pt) (delta_time : ℚ) :
    Option (Pt × ℚ) := do
  let k1 ← velocity_at_point Vx Vy x y p
  let k2 ← velocity_at_point Vx Vy x y (padd p (psmul delta_time (psmul (1/4) k1)))
  let k3 ← velocity_at_point Vx Vy x y
    (padd p (psmul delta_time (padd (psmul (3/32) k1) (psmul (9/32) k2))))
  let k4 ← velocity_at_point Vx Vy x y
    (padd p (psmul delta_time (padd (psmul (1932/2197) k1)
      (padd (psmul (-7200/2197) k2) (psmul (7296/2197) k3)))))
  let k5 ← velocity_at_point Vx Vy x y
    (padd p (psmul delta_time (padd (psmul (439/216) k1)
      (padd (psmul (-8) k2) (padd (psmul (3680/513) k3) (psmul (-845/4104) k4))))))
  let k6 ← velocity_at_point Vx Vy x y
    (padd p (psmul delta_time (padd (psmul (-8/27) k1)
      (padd (psmul 2 k2) (padd (psmul (-3544/2565) k3)
        (padd (psmul (1859/4104) k4) (psmul (-11/40) k5)))))))
  let p5 := padd p (psmul delta_time (padd (psmul (16/135) k1)
    (padd (psmul (6656/12825) k3) (padd (psmul (28561/56430) k4)
      (padd (psmul (-9/50) k5) (psmul (2/55) k6))))))
  let p4 := padd p (psmul delta_time (padd (psmul (25/216) k1)
    (padd (psmul (1408/2565) k3) (padd (psmul (2197/4104) k4) (psmul (-1/5) k5)))))
  pure (p5, distSq p4 p5)

/-- The while loop of compute_trajectory (trajectories.py lines 60-66), as
structural recursion on a fuel bound: while abs(time) <= total_time, take one
RKF step, append the point and its error estimate and advance time by dt, and
break as soon as a step is undefined.  Returns the appended suffixes. -/
def trajLoop (Vx Vy : Grid) (x y : List ℚ) (dt total_time : ℚ) :
    ℕ → ℚ → Pt → List Pt × List ℚ
  | 0, _, _ => ([], [])
  | n + 1, time, p =>
    if |time| ≤ total_time then
      match interpolate_rkf Vx Vy x y p dt with
      | none => ([], [])
      | some (q, e) =>
        let r := trajLoop Vx Vy x y dt total_time n (time + dt) q
        (q :: r.1, e :: r.2)
    else ([], [])

/-- Fuel sufficient for the while loop of compute_trajectory: when dt is
nonzero, elapsed time after k steps is k * dt, so the loop condition
abs(time) <= total_time fails after at most floor(|T| / |dt|) + 1 steps. -/
def rkfFuel (dt total_time : ℚ) : ℕ :=
  if dt = 0 then 0 else (Rat.floor (|total_time| / |dt|)).toNat + 2

/-- compute_trajectory (trajectories.py lines 41-67): negate both velocity
components when reverse is set, then iterate the RKF step from the seed
point, returning the point sequence and the parallel error-estimate sequence
whose first entries are the seed and 0. -/
def compute_trajectory (point : Pt) (Vx Vy : Grid) (x y : List ℚ)
    (dt : ℚ) (total_time : ℚ) (reverse : Bool) : List Pt × List ℚ :=
  let Vx := if reverse then negGrid Vx else Vx
  let Vy := if reverse then negGrid Vy else Vy
  let r := trajLoop Vx Vy x y dt total_time (rkfFuel dt total_time) 0 point
  (point :: r.1, 0 :: r.2)

/-- get_perturbed_velocities (trajectories.py lines 379-391): fields as
rational-valued arrays over an index type, numpy elementwise arithmetic as
pointwise arithmetic.  Builds the envelope mean - sigma*err .. mean +
sigma*err per component and linearly interpolates into it with the
fractional sample coordinates. -/
def get_perturbed_velocities {ι : Type} (VX VY VX_e VY_e : ι → ℚ)
    (sample : ℚ × ℚ) (sigma : ℚ) : (ι → ℚ) × (ι → ℚ) :=
  let VX_min := fun i => VX i - sigma * VX_e i
  let VX_max := fun i => VX i + sigma * VX_e i
  let VY_min := fun i => VY i - sigma * VY_e i
  let VY_max := fun i => VY i + sigma * VY_e i
  (fun i => VX_min i + sample.1 * (VX_max i - VX_min i),
   fun i => VY_min i + sample.2 * (VY_max i - VY_min i))

/-- The perturbed velocity field computed inline by
compute_perturbation_preprocessed from precomputed bounds (trajectories.py
lines 183-184): Vx = VX_min + sample[0] * (VX_max - VX_min) and likewise for
Vy with sample[1]. -/
def perturbed_velocities_preprocessed {ι : Type} (VX_min VX_max VY_min VY_max : ι → ℚ)
    (sample : ℚ × ℚ) : (ι → ℚ) × (ι → ℚ) :=
  (fun i => VX_min i + sample.1 * (VX_max i - VX_min i),
   fun i => VY_min i + sample.2 * (VY_max i - VY_min i))

/-- Error kinds of the sampler (spec section 7). -/
inductive SamplerError where
  | dataError
deriving DecidableEq

/-- Inverse-CDF selection for one multinomial draw: walk the probability
vector, picking the first index whose cumulative probability exceeds the
uniform draw u. -/
def pick : List ℚ → ℚ → ℕ
  | [], _ => 0
  | w :: ws, u => if u < w then 0 else pick ws (u - w) + 1

/-- Modelled from the spec (4.1, steps 3-4): the resampling core of
pism_ragis.filtering.importance_sampling (not among the sources; only its
caller analyze_spatial.py is).  Given the per-member posterior weights
produced by the likelihood reduction, normalize them to probabilities, fail
with a DataError when all probabilities are zero (no valid posterior), and
otherwise draw n_samples member indices independently with replacement,
consuming one uniform [0,1) draw per sample from the supplied random
primitive (spec section 6). -/
def importance_sampling (weights : List ℚ) (n_samples : ℕ) (draws : ℕ → ℚ) :
    Except SamplerError (List ℕ) :=
  let total := weights.sum
  let probs := weights.map (fun w => w / total)
  if probs.all (fun p => p == 0) then Except.error SamplerError.dataError
  else Except.ok ((List.range n_samples).map (fun k => pick probs (draws k)))

/-- Read a 2D array out of a store of arrays. -/
def readGrid (store : List Grid) (i : ℕ) : Grid := store.getD i []

/-- Python-level frame model of compute_trajectory (trajectories.py lines
54-56): the four array arguments are references into stores (2D velocity
arrays and 1D axis arrays).  The numpy expressions -Vx and -Vy each allocate
a fresh array, modelled by appending to the store; the assignments rebind
the local names to the fresh arrays, and the integration then runs on the
rebound values.  The axis store is never touched. -/
def compute_trajectory_store (point : Pt) (store2 : List Grid) (ivx ivy : ℕ)
    (store1 : List (List ℚ)) (ix iy : ℕ) (dt total_time : ℚ) (reverse : Bool) :
    (List Grid × List (List ℚ)) × (List Pt × List ℚ) :=
  let x := store1.getD ix []
  let y := store1.getD iy []
  if reverse then
    let store2' := store2 ++ [negGrid (readGrid store2 ivx), negGrid (readGrid store2 ivy)]
    let jvx := store2.length
    let jvy := store2.length + 1
    ((store2', store1),
      compute_trajectory point (readGrid store2' jvx) (readGrid store2' jvy) x y
        dt total_time false)
  else
    ((store2, store1),
      compute_trajectory point (readGrid store2 ivx) (readGrid store2 ivy) x y
        dt total_time false)

/-! ### Properties of the trajectory loop -/

theorem trajLoop_succ_of_none (Vx Vy : Grid) (x y : List ℚ) (dt T : ℚ) (n : ℕ)
    (t : ℚ) (p : Pt) (h : |t| ≤ T) (hs : interpolate_rkf Vx Vy x y p dt = none) :
    trajLoop Vx Vy x y dt T (n + 1) t p = ([], []) := by
  rw [trajLoop, if_pos h, hs]

theorem trajLoop_succ_of_some (Vx Vy : Grid) (x y : List ℚ) (dt T : ℚ) (n : ℕ)
    (t : ℚ) (p q : Pt) (e : ℚ) (h : |t| ≤ T)
    (hs : interpolate_rkf Vx Vy x y p dt = some (q, e)) :
    trajLoop Vx Vy x y dt T (n + 1) t p =
      (q :: (trajLoop Vx Vy x y dt T n (t + dt) q).1,
       e :: (trajLoop Vx Vy x y dt T n (t + dt) q).2) := by
  rw [trajLoop, if_pos h, hs]

theorem trajLoop_succ_of_late (Vx Vy : Grid) (x y : List ℚ) (dt T : ℚ) (n : ℕ)
    (t : ℚ) (p : Pt) (h : ¬ |t| ≤ T) :
    trajLoop Vx Vy x y dt T (n + 1) t p = ([], []) := by
  rw [trajLoop, if_neg h]

theorem trajLoop_length (Vx Vy : Grid) (x y : List ℚ) (dt T : ℚ) (n : ℕ) :
    ∀ (t : ℚ) (p : Pt),
      (trajLoop Vx Vy x y dt T n t p).1.length = (trajLoop Vx Vy x y dt T n t p).2.length := by
  induction n with
  | zero => intro t p; simp [trajLoop]
  | succ n ih =>
    intro t p
    by_cases h : |t| ≤ T
    · cases hs : interpolate_rkf Vx Vy x y p dt with
      | none => rw [trajLoop_succ_of_none Vx Vy x y dt T n t p h hs]; rfl
      | some qe =>
        obtain ⟨q, e⟩ := qe
        rw [trajLoop_succ_of_some Vx Vy x y dt T n t p q e h hs]
        simp only [List.length_cons, ih]
    · rw [trajLoop_succ_of_late Vx Vy x y dt T n t p h]; rfl

theorem trajLoop_chain (Vx Vy : Grid) (x y : List ℚ) (dt T : ℚ) (n : ℕ) :
    ∀ (t : ℚ) (p : Pt) (e : ℚ),
      List.Chain (fun a b => interpolate_rkf Vx Vy x y a.1 dt = some b) (p, e)
        ((trajLoop Vx Vy x y dt T n t p).1.zip (trajLoop Vx Vy x y dt T n t p).2) := by
  induction n with
  | zero => intro t p e; simp [trajLoop]
  | succ n ih =>
    intro t p e
    by_cases h : |t| ≤ T
    · cases hs : interpolate_rkf Vx Vy x y p dt with
      | none => rw [trajLoop_succ_of_none Vx Vy x y dt T n t p h hs]; simp
      | some qe =>
        obtain ⟨q, e2⟩ := qe
        rw [trajLoop_succ_of_some Vx Vy x y dt T n t p q e2 h hs]
        simp only [List.zip_cons_cons]
        exact List.Chain.cons hs (ih (t + dt) q e2)
    · rw [trajLoop_succ_of_late Vx Vy x y dt T n t p h]; simp

theorem trajLoop_time (Vx Vy : Grid) (x y : List ℚ) (dt T : ℚ) (n : ℕ) :
    ∀ (t : ℚ) (p : Pt) (i : ℕ), i < (trajLoop Vx Vy x y dt T n t p).1.length →
      |t + (i : ℚ) * dt| ≤ T := by
  induction n with
  | zero => intro t p i hi; simp [trajLoop] at hi
  | succ n ih =>
    intro t p i hi
    by_cases h : |t| ≤ T
    · cases hs : interpolate_rkf Vx Vy x y p dt with
      | none => rw [trajLoop_succ_of_none Vx Vy x y dt T n t p h hs] at hi; simp at hi
      | some qe =>
        obtain ⟨q, e⟩ := qe
        rw [trajLoop_succ_of_some Vx Vy x y dt T n t p q e h hs] at hi
        simp only [List.length_cons] at hi
        cases i with
        | zero => simpa using h
        | succ j =>
          have hj : j < (trajLoop Vx Vy x y dt T n (t + dt) q).1.length :=
            Nat.lt_of_succ_lt_succ hi
          have hrec := ih (t + dt) q j hj
          have harith : t + ((j : ℚ) + 1) * dt = t + dt + (j : ℚ) * dt := by ring
          rw [Nat.cast_succ, harith]
          exact hrec
    · rw [trajLoop_succ_of_late Vx Vy x y dt T n t p h] at hi
      simp at hi

theorem trajLoop_stop (Vx Vy : Grid) (x y : List ℚ) (dt T : ℚ) (n : ℕ) :
    ∀ (t : ℚ) (p : Pt),
      (trajLoop Vx Vy x y dt T n t p).1.length < n →
      |t + ((trajLoop Vx Vy x y dt T n t p).1.length : ℚ) * dt| ≤ T →
      interpolate_rkf Vx Vy x y ((trajLoop Vx Vy x y dt T n t p).1.getLastD p) dt = none := by
  induction n with
  | zero => intro t p h; exact absurd h (Nat.not_lt_zero _)
  | succ n ih =>
    intro t p hlen htime
    by_cases h : |t| ≤ T
    · cases hs : interpolate_rkf Vx Vy x y p dt with
      | none =>
        rw [trajLoop_succ_of_none Vx Vy x y dt T n t p h hs]
        simpa using hs
      | some qe =>
        obtain ⟨q, e⟩ := qe
        rw [trajLoop_succ_of_some Vx Vy x y dt T n t p q e h hs] at hlen htime ⊢
        simp only [List.length_cons] at hlen htime
        simp only [List.getLastD_cons]
        have hlen2 : (trajLoop Vx Vy x y dt T n (t + dt) q).1.length < n :=
          Nat.lt_of_succ_lt_succ hlen
        have htime2 :
            |t + dt + ((trajLoop Vx Vy x y dt T n (t + dt) q).1.length : ℚ) * dt| ≤ T := by
          have harith : t + dt + ((trajLoop Vx Vy x y dt T n (t + dt) q).1.length : ℚ) * dt
              = t + (((trajLoop Vx Vy x y dt T n (t + dt) q).1.length : ℚ) + 1) * dt := by
            ring
          rw [harith]
          simpa [Nat.cast_succ] using htime
        exact ih (t + dt) q hlen2 htime2
    · rw [trajLoop_succ_of_late Vx Vy x y dt T n t p h] at htime
      simp only [List.length_nil, Nat.cast_zero, zero_mul, add_zero] at htime
      exact absurd htime h

theorem ratFloor_eq (q : ℚ) : Rat.floor q = ⌊q⌋ := by
  rw [Rat.floor_def', Rat.floor_def]

theorem trajLoop_length_le (Vx Vy : Grid) (x y : List ℚ) (dt T : ℚ) (hdt : dt ≠ 0)
    (n : ℕ) (p : Pt) :
    (trajLoop Vx Vy x y dt T n 0 p).1.length ≤ (Rat.floor (|T| / |dt|)).toNat + 1 := by
  rcases Nat.eq_zero_or_pos (trajLoop Vx Vy x y dt T n 0 p).1.length with hL | hL
  · omega
  · have h0 : (0:ℚ) ≤ T := by
      have := trajLoop_time Vx Vy x y dt T n 0 p 0 hL
      simpa using this
    have h1 := trajLoop_time Vx Vy x y dt T n 0 p
      ((trajLoop Vx Vy x y dt T n 0 p).1.length - 1) (by omega)
    rw [zero_add, abs_mul] at h1
    rw [abs_of_nonneg (by positivity : (0:ℚ) ≤ (((trajLoop Vx Vy x y dt T n 0 p).1.length - 1 : ℕ) : ℚ))] at h1
    have hdtpos : (0:ℚ) < |dt| := abs_pos.mpr hdt
    have h2 : (((trajLoop Vx Vy x y dt T n 0 p).1.length - 1 : ℕ) : ℚ) ≤ |T| / |dt| := by
      rw [le_div_iff₀ hdtpos]
      rw [abs_of_nonneg h0]
      exact h1
    have h3 : ((((trajLoop Vx Vy x y dt T n 0 p).1.length - 1 : ℕ) : ℤ) : ℚ) ≤ |T| / |dt| := by
      push_cast
      push_cast at h2
      exact h2
    have h4 : (((trajLoop Vx Vy x y dt T n 0 p).1.length - 1 : ℕ) : ℤ) ≤ ⌊|T| / |dt|⌋ :=
      Int.le_floor.mpr h3
    have h5 : (0:ℤ) ≤ ⌊|T| / |dt|⌋ := Int.floor_nonneg.mpr (by positivity)
    have h6 : (trajLoop Vx Vy x y dt T n 0 p).1.length - 1 ≤ ⌊|T| / |dt|⌋.toNat :=
      (Int.le_toNat h5).mpr h4
    rw [ratFloor_eq]
    omega

theorem trajLoop_length_lt_fuel (Vx Vy : Grid) (x y : List ℚ) (dt T : ℚ)
    (hdt : dt ≠ 0) (p : Pt) :
    (trajLoop Vx Vy x y dt T (rkfFuel dt T) 0 p).1.length < rkfFuel dt T := by
  have h := trajLoop_length_le Vx Vy x y dt T hdt (rkfFuel dt T) p
  have h2 : rkfFuel dt T = (Rat.floor (|T| / |dt|)).toNat + 2 := by
    rw [rkfFuel, if_neg hdt]
  omega

/-- C9: for dt > 0 and total_time >= 0 the trajectory integration terminates
(it is a total function of a fuel bound that dominates the while loop, whose
elapsed time increases by dt every iteration) and the returned point sequence
has at most floor(total_time/dt) + 2 entries. -/
theorem compute_trajectory_length_bound (point : Pt) (Vx Vy : Grid) (x y : List ℚ)
    (dt T : ℚ) (reverse : Bool) (hdt : 0 < dt) (hT : 0 ≤ T) :
    (compute_trajectory point Vx Vy x y dt T reverse).1.length ≤ (⌊T / dt⌋).toNat + 2 := by
  have h := trajLoop_length_le (if reverse then negGrid Vx else Vx)
    (if reverse then negGrid Vy else Vy) x y dt T (ne_of_gt hdt) (rkfFuel dt T) point
  have habs : |T| / |dt| = T / dt := by rw [abs_of_nonneg hT, abs_of_pos hdt]
  rw [habs, ratFloor_eq] at h
  simp only [compute_trajectory, List.length_cons]
  omega

/-- C9 witness: the bound instantiated on the uniform 3x3 grid scenario. -/
theorem compute_trajectory_length_bound_witness :
    (0:ℚ) < 1/10 ∧ (0:ℚ) ≤ 1 ∧
    (compute_trajectory ((1:ℚ), (1:ℚ)) [[1,1,1],[1,1,1],[1,1,1]] [[0,0,0],[0,0,0],[0,0,0]]
      [0,1,2] [0,1,2] (1/10) 1 false).1.length ≤ (⌊(1:ℚ) / (1/10)⌋).toNat + 2 :=
  ⟨by norm_num, by norm_num,
    compute_trajectory_length_bound ((1:ℚ), (1:ℚ)) [[1,1,1],[1,1,1],[1,1,1]]
      [[0,0,0],[0,0,0],[0,0,0]] [0,1,2] [0,1,2] (1/10) 1 false (by norm_num) (by norm_num)⟩

/-- C1: for every seed point, velocity field, axes and nonzero step dt,
compute_trajectory returns a point sequence and a parallel error-estimate
sequence of equal length whose first entries are the seed point and 0; each
consecutive pair of entries is produced by one successful RKF step (the next
point and its error estimate are exactly the output of interpolate_rkf at
the previous point); every appended step was taken while the accumulated
time satisfied abs(time) <= total_time; and when the final accumulated time
still satisfies the loop bound, the loop stopped only because the next RKF
step returned an undefined result. -/
theorem compute_trajectory_spec (point : Pt) (Vx Vy : Grid) (x y : List ℚ)
    (dt T : ℚ) (hdt : dt ≠ 0) :
    (compute_trajectory point Vx Vy x y dt T false).1.length
      = (compute_trajectory point Vx Vy x y dt T false).2.length ∧
    (compute_trajectory point Vx Vy x y dt T false).1.head? = some point ∧
    (compute_trajectory point Vx Vy x y dt T false).2.head? = some 0 ∧
    List.Chain' (fun a b => interpolate_rkf Vx Vy x y a.1 dt = some b)
      ((compute_trajectory point Vx Vy x y dt T false).1.zip
        (compute_trajectory point Vx Vy x y dt T false).2) ∧
    (∀ i : ℕ, i + 1 < (compute_trajectory point Vx Vy x y dt T false).1.length →
      |(i : ℚ) * dt| ≤ T) ∧
    (|(((compute_trajectory point Vx Vy x y dt T false).1.length - 1 : ℕ) : ℚ) * dt| ≤ T →
      interpolate_rkf Vx Vy x y
        ((compute_trajectory point Vx Vy x y dt T false).1.getLastD point) dt = none) := by
  have hc : compute_trajectory point Vx Vy x y dt T false =
      (point :: (trajLoop Vx Vy x y dt T (rkfFuel dt T) 0 point).1,
       0 :: (trajLoop Vx Vy x y dt T (rkfFuel dt T) 0 point).2) := rfl
  refine ⟨?_, ?_, ?_, ?_, ?_, ?_⟩
  · rw [hc]
    simp only [List.length_cons, trajLoop_length]
  · rw [hc]
    rfl
  · rw [hc]
    rfl
  · rw [hc]
    simp only [List.zip_cons_cons]
    exact trajLoop_chain Vx Vy x y dt T (rkfFuel dt T) 0 point 0
  · intro i hi
    rw [hc] at hi
    simp only [List.length_cons] at hi
    have := trajLoop_time Vx Vy x y dt T (rkfFuel dt T) 0 point i
      (Nat.lt_of_succ_lt_succ hi)
    simpa using this
  · intro hle
    rw [hc] at hle ⊢
    simp only [List.length_cons, Nat.succ_sub_one] at hle
    simp only [List.getLastD_cons]
    have hfuel := trajLoop_length_lt_fuel Vx Vy x y dt T hdt point
    exact trajLoop_stop Vx Vy x y dt T (rkfFuel dt T) 0 point hfuel (by simpa using hle)

/-- C1 witness: the characterization instantiated on an empty grid, where
the very first step fails and the result is the seed alone. -/
theorem compute_trajectory_spec_witness :
    ((1:ℚ) ≠ 0) ∧
    ((compute_trajectory ((0:ℚ), (0:ℚ)) [] [] [] [] 1 1 false).1.length
      = (compute_trajectory ((0:ℚ), (0:ℚ)) [] [] [] [] 1 1 false).2.length ∧
    (compute_trajectory ((0:ℚ), (0:ℚ)) [] [] [] [] 1 1 false).1.head? = some ((0:ℚ), (0:ℚ)) ∧
    (compute_trajectory ((0:ℚ), (0:ℚ)) [] [] [] [] 1 1 false).2.head? = some 0 ∧
    List.Chain' (fun a b => interpolate_rkf [] [] [] [] a.1 1 = some b)
      ((compute_trajectory ((0:ℚ), (0:ℚ)) [] [] [] [] 1 1 false).1.zip
        (compute_trajectory ((0:ℚ), (0:ℚ)) [] [] [] [] 1 1 false).2) ∧
    (∀ i : ℕ, i + 1 < (compute_trajectory ((0:ℚ), (0:ℚ)) [] [] [] [] 1 1 false).1.length →
      |(i : ℚ) * 1| ≤ 1) ∧
    (|(((compute_trajectory ((0:ℚ), (0:ℚ)) [] [] [] [] 1 1 false).1.length - 1 : ℕ) : ℚ) * 1| ≤ 1 →
      interpolate_rkf [] [] [] []
        ((compute_trajectory ((0:ℚ), (0:ℚ)) [] [] [] [] 1 1 false).1.getLastD ((0:ℚ), (0:ℚ)))
        1 = none)) :=
  ⟨by norm_num, compute_trajectory_spec ((0:ℚ), (0:ℚ)) [] [] [] [] 1 1 (by norm_num)⟩

/-- C2: reversing the integration direction is the same as integrating the
negated field: compute_trajectory with reverse=True on (Vx, Vy) returns
exactly the same point and error-estimate sequences as compute_trajectory
with reverse=False on (-Vx, -Vy), because the code negates both components
up front and then runs the identical loop. -/
theorem compute_trajectory_reverse (point : Pt) (Vx Vy : Grid) (x y : List ℚ)
    (dt T : ℚ) :
    compute_trajectory point Vx Vy x y dt T true =
      compute_trajectory point (negGrid Vx) (negGrid Vy) x y dt T false := rfl

/-- C3: on the synthetic 3x3 grid with axes 0,1,2 and uniform velocity (1,0),
seeded at the grid center (1,1) with dt=1/10, total_time=1 and reverse=False,
the trajectory is the 11-point straight march to (1+1, 1) = (x0+1, y0) (the
12th step leaves the grid and terminates the loop), and every per-step error
estimate is exactly zero since the RKF4 and RKF5 estimates agree on a
constant field. -/
theorem compute_trajectory_uniform_field :
    compute_trajectory ((1:ℚ), (1:ℚ)) [[1,1,1],[1,1,1],[1,1,1]] [[0,0,0],[0,0,0],[0,0,0]]
        [0,1,2] [0,1,2] (1/10) 1 false =
      ([(1,1), (11/10,1), (6/5,1), (13/10,1), (7/5,1), (3/2,1), (8/5,1), (17/10,1),
        (9/5,1), (19/10,1), (1+1,1)],
       [0,0,0,0,0,0,0,0,0,0,0]) := by
  with_unfolding_all decide

theorem bilinear_none_of_x (V : Grid) (x y : List ℚ) (px py : ℚ)
    (h : cellIndex x px = none) : bilinear V x y px py = none := by
  simp only [bilinear, h, Option.bind_eq_bind, Option.none_bind]

theorem bilinear_none_of_y (V : Grid) (x y : List ℚ) (px py : ℚ)
    (h : cellIndex y py = none) : bilinear V x y px py = none := by
  cases hcx : cellIndex x px with
  | none => simp only [bilinear, hcx, Option.bind_eq_bind, Option.none_bind]
  | some i =>
    simp only [bilinear, hcx, h, Option.bind_eq_bind, Option.none_bind, Option.some_bind]

theorem velocity_at_point_none (Vx Vy : Grid) (x y : List ℚ) (p : Pt)
    (h : cellIndex x p.1 = none ∨ cellIndex y p.2 = none) :
    velocity_at_point Vx Vy x y p = none := by
  rcases h with h | h
  · simp only [velocity_at_point, bilinear_none_of_x Vx x y p.1 p.2 h,
      Option.bind_eq_bind, Option.none_bind]
  · simp only [velocity_at_point, bilinear_none_of_y Vx x y p.1 p.2 h,
      Option.bind_eq_bind, Option.none_bind]

theorem interpolate_rkf_none_of_vel_none (Vx Vy : Grid) (x y : List ℚ) (p : Pt)
    (dt : ℚ) (h : velocity_at_point Vx Vy x y p = none) :
    interpolate_rkf Vx Vy x y p dt = none := by
  simp only [interpolate_rkf, h, Option.bind_eq_bind, Option.none_bind]

theorem trajLoop_of_seed_fail (Vx Vy : Grid) (x y : List ℚ) (dt T : ℚ) (n : ℕ)
    (t : ℚ) (p : Pt) (hs : interpolate_rkf Vx Vy x y p dt = none) :
    trajLoop Vx Vy x y dt T n t p = ([], []) := by
  cases n with
  | zero => rfl
  | succ n =>
    by_cases h : |t| ≤ T
    · exact trajLoop_succ_of_none Vx Vy x y dt T n t p h hs
    · exact trajLoop_succ_of_late Vx Vy x y dt T n t p h

/-- C4: when the seed point lies outside the grid domain on either axis, the
interpolated velocity of the very first RKF stage is undefined, so
interpolate_rkf returns an undefined result and compute_trajectory returns
the length-1 point sequence holding only the seed together with the error
sequence [0]; the domain error is absorbed by the loop rather than raised. -/
theorem compute_trajectory_outside_seed (point : Pt) (Vx Vy : Grid) (x y : List ℚ)
    (dt T : ℚ) (h : cellIndex x point.1 = none ∨ cellIndex y point.2 = none) :
    interpolate_rkf Vx Vy x y point dt = none ∧
    compute_trajectory point Vx Vy x y dt T false = ([point], [0]) := by
  have hrkf := interpolate_rkf_none_of_vel_none Vx Vy x y point dt
    (velocity_at_point_none Vx Vy x y point h)
  refine ⟨hrkf, ?_⟩
  have hc : compute_trajectory point Vx Vy x y dt T false =
      (point :: (trajLoop Vx Vy x y dt T (rkfFuel dt T) 0 point).1,
       0 :: (trajLoop Vx Vy x y dt T (rkfFuel dt T) 0 point).2) := rfl
  rw [hc, trajLoop_of_seed_fail Vx Vy x y dt T (rkfFuel dt T) 0 point hrkf]

/-- C4 witness: a seed at (5,5) outside the unit cell grid with axes 0,1
yields the seed-only trajectory with error sequence [0]. -/
theorem compute_trajectory_outside_seed_witness :
    (cellIndex [0,1] ((5:ℚ),(5:ℚ)).1 = none ∨ cellIndex [0,1] ((5:ℚ),(5:ℚ)).2 = none) ∧
    (interpolate_rkf [[1,1],[1,1]] [[0,0],[0,0]] [0,1] [0,1] ((5:ℚ),(5:ℚ)) 1 = none ∧
     compute_trajectory ((5:ℚ),(5:ℚ)) [[1,1],[1,1]] [[0,0],[0,0]] [0,1] [0,1] 1 10 false
       = ([((5:ℚ),(5:ℚ))], [0])) :=
  ⟨Or.inl (by decide),
   compute_trajectory_outside_seed ((5:ℚ),(5:ℚ)) [[1,1],[1,1]] [[0,0],[0,0]] [0,1] [0,1]
     1 10 (Or.inl (by decide))⟩

/-- C5: for positive sigma, get_perturbed_velocities hits the envelope
corners and center exactly: sample (0,0) returns the lower bound
(VX - sigma*VX_e, VY - sigma*VY_e), sample (1,1) returns the upper bound
(VX + sigma*VX_e, VY + sigma*VY_e), and sample (1/2,1/2) returns the mean
(VX, VY) exactly, the envelope being symmetric about the mean in exact
arithmetic. -/
theorem get_perturbed_velocities_envelope {ι : Type} (VX VY VX_e VY_e : ι → ℚ)
    (sigma : ℚ) (hs : 0 < sigma) :
    get_perturbed_velocities VX VY VX_e VY_e (0, 0) sigma
        = (fun i => VX i - sigma * VX_e i, fun i => VY i - sigma * VY_e i) ∧
    get_perturbed_velocities VX VY VX_e VY_e (1, 1) sigma
        = (fun i => VX i + sigma * VX_e i, fun i => VY i + sigma * VY_e i) ∧
    get_perturbed_velocities VX VY VX_e VY_e (1/2, 1/2) sigma = (VX, VY) := by
  refine ⟨?_, ?_, ?_⟩ <;>
    · unfold get_perturbed_velocities
      refine Prod.ext ?_ ?_ <;>
        · funext i
          ring

/-- C5 witness: the envelope identities at sigma = 1 on a one-cell index
type with constant fields. -/
theorem get_perturbed_velocities_envelope_witness :
    (0:ℚ) < 1 ∧
    (get_perturbed_velocities (fun _ : Fin 1 => (3:ℚ)) (fun _ => 4) (fun _ => 1) (fun _ => 2)
        (0, 0) 1
        = (fun i => (fun _ : Fin 1 => (3:ℚ)) i - 1 * (fun _ : Fin 1 => (1:ℚ)) i,
           fun i => (fun _ : Fin 1 => (4:ℚ)) i - 1 * (fun _ : Fin 1 => (2:ℚ)) i) ∧
    get_perturbed_velocities (fun _ : Fin 1 => (3:ℚ)) (fun _ => 4) (fun _ => 1) (fun _ => 2)
        (1, 1) 1
        = (fun i => (fun _ : Fin 1 => (3:ℚ)) i + 1 * (fun _ : Fin 1 => (1:ℚ)) i,
           fun i => (fun _ : Fin 1 => (4:ℚ)) i + 1 * (fun _ : Fin 1 => (2:ℚ)) i) ∧
    get_perturbed_velocities (fun _ : Fin 1 => (3:ℚ)) (fun _ => 4) (fun _ => 1) (fun _ => 2)
        (1/2, 1/2) 1
        = (fun _ : Fin 1 => (3:ℚ), fun _ : Fin 1 => (4:ℚ))) :=
  ⟨by norm_num,
   get_perturbed_velocities_envelope (fun _ : Fin 1 => (3:ℚ)) (fun _ => 4) (fun _ => 1)
     (fun _ => 2) 1 (by norm_num)⟩

/-- C6: the perturbed velocity field computed inline by
compute_perturbation_preprocessed from the precomputed bounds
VX_min = VX - sigma*VX_e, VX_max = VX + sigma*VX_e (and likewise for VY)
coincides with the field returned by get_perturbed_velocities on the raw
mean and error fields: the two ways of obtaining the field are equivalent. -/
theorem perturbation_preprocessed_equiv {ι : Type} (VX VY VX_e VY_e : ι → ℚ)
    (sample : ℚ × ℚ) (sigma : ℚ) :
    perturbed_velocities_preprocessed
      (fun i => VX i - sigma * VX_e i) (fun i => VX i + sigma * VX_e i)
      (fun i => VY i - sigma * VY_e i) (fun i => VY i + sigma * VY_e i) sample =
    get_perturbed_velocities VX VY VX_e VY_e sample sigma := rfl

theorem pick_mem_pos :
    ∀ (l : List ℚ) (u : ℚ), (∀ w ∈ l, 0 ≤ w) → 0 ≤ u → u < l.sum →
      pick l u < l.length ∧ ∃ w, l[pick l u]? = some w ∧ 0 < w := by
  intro l
  induction l with
  | nil =>
    intro u _ hu hlt
    rw [List.sum_nil] at hlt
    exact absurd (lt_of_le_of_lt hu hlt) (lt_irrefl 0)
  | cons w ws ih =>
    intro u hl hu hlt
    by_cases h : u < w
    · refine ⟨by simp [pick, h], w, by simp [pick, h], lt_of_le_of_lt hu h⟩
    · have hw : w ≤ u := not_lt.mp h
      have h1 : 0 ≤ u - w := sub_nonneg.mpr hw
      have h2 : u - w < ws.sum := by
        rw [List.sum_cons] at hlt
        linarith
      have h3 : ∀ v ∈ ws, 0 ≤ v := fun v hv => hl v (List.mem_cons_of_mem w hv)
      obtain ⟨hlen, w', hget, hpos⟩ := ih (u - w) h3 h1 h2
      refine ⟨?_, w', ?_, hpos⟩
      · simp only [pick, if_neg h, List.length_cons]
        omega
      · simp only [pick, if_neg h, List.getElem?_cons_succ]
        exact hget

theorem sum_map_div (l : List ℚ) (t : ℚ) : (l.map (fun w => w / t)).sum = l.sum / t := by
  induction l with
  | nil => simp
  | cons w ws ih => simp [ih, add_div]

/-- C7: for nonnegative posterior weights with at least one positive entry,
any positive number of requested samples, and uniform draws in [0,1), the
importance sampler succeeds and returns exactly n_samples ensemble indices,
each of which indexes a member with nonzero (positive) posterior weight. -/
theorem importance_sampling_spec (weights : List ℚ) (n_samples : ℕ) (draws : ℕ → ℚ)
    (hw : ∀ w ∈ weights, 0 ≤ w) (hpos : ∃ w ∈ weights, 0 < w) (hn : 0 < n_samples)
    (hd : ∀ k, 0 ≤ draws k ∧ draws k < 1) :
    ∃ ids, importance_sampling weights n_samples draws = Except.ok ids ∧
      ids.length = n_samples ∧
      ∀ j ∈ ids, ∃ w, weights[j]? = some w ∧ 0 < w := by
  obtain ⟨w0, hw0mem, hw0pos⟩ := hpos
  have htot : 0 < weights.sum := lt_of_lt_of_le hw0pos (List.single_le_sum hw w0 hw0mem)
  have hall : (weights.map (fun w => w / weights.sum)).all (fun p => p == 0) = false := by
    rw [List.all_eq_false]
    refine ⟨w0 / weights.sum, List.mem_map_of_mem _ hw0mem, ?_⟩
    simp only [beq_iff_eq]
    exact fun hzero => absurd hzero (ne_of_gt (div_pos hw0pos htot))
  refine ⟨(List.range n_samples).map
    (fun k => pick (weights.map (fun w => w / weights.sum)) (draws k)), ?_, ?_, ?_⟩
  · simp only [importance_sampling, hall, Bool.false_eq_true, if_false]
  · rw [List.length_map, List.length_range]
  · intro j hj
    simp only [List.mem_map, List.mem_range] at hj
    obtain ⟨k, _, hk⟩ := hj
    have hprobs_nonneg : ∀ p ∈ weights.map (fun w => w / weights.sum), 0 ≤ p := by
      intro p hp
      obtain ⟨w, hwmem, rfl⟩ := List.mem_map.mp hp
      exact div_nonneg (hw w hwmem) htot.le
    have hsum : (weights.map (fun w => w / weights.sum)).sum = 1 := by
      rw [sum_map_div]
      exact div_self (ne_of_gt htot)
    obtain ⟨hlt, w, hget, hwpos⟩ := pick_mem_pos (weights.map (fun w => w / weights.sum))
      (draws k) hprobs_nonneg (hd k).1 (by rw [hsum]; exact (hd k).2)
    rw [← hk]
    rw [List.getElem?_map] at hget
    cases hwg : weights[pick (weights.map (fun w => w / weights.sum)) (draws k)]? with
    | none => rw [hwg] at hget; simp at hget
    | some w1 =>
      rw [hwg] at hget
      simp only [Option.map_some', Option.some.injEq] at hget
      refine ⟨w1, rfl, ?_⟩
      have : 0 < w1 / weights.sum := hget ▸ hwpos
      by_contra hneg
      push_neg at hneg
      have : w1 / weights.sum ≤ 0 := div_nonpos_of_nonpos_of_nonneg hneg htot.le
      linarith [hget ▸ hwpos]

/-- C7 witness: a single member with weight 1, one requested sample, draws
constantly 0. -/
theorem importance_sampling_spec_witness :
    (∀ w ∈ [(1:ℚ)], 0 ≤ w) ∧ (∃ w ∈ [(1:ℚ)], 0 < w) ∧ 0 < 1 ∧
    (∀ k : ℕ, 0 ≤ (fun _ : ℕ => (0:ℚ)) k ∧ (fun _ : ℕ => (0:ℚ)) k < 1) ∧
    (∃ ids, importance_sampling [(1:ℚ)] 1 (fun _ => 0) = Except.ok ids ∧
      ids.length = 1 ∧
      ∀ j ∈ ids, ∃ w, [(1:ℚ)][j]? = some w ∧ 0 < w) :=
  ⟨fun w hw => by simp at hw; simp [hw], ⟨1, by simp, by norm_num⟩, by norm_num,
   fun k => ⟨le_refl 0, by norm_num⟩,
   importance_sampling_spec [(1:ℚ)] 1 (fun _ => 0)
     (fun w hw => by simp at hw; simp [hw]) ⟨1, by simp, by norm_num⟩ (by norm_num)
     (fun k => ⟨le_refl 0, by norm_num⟩)⟩

/-- C8: when every ensemble member's normalized probability is zero (all
posterior weights vanish), the importance sampler fails the call with a
DataError instead of returning a defaulted or partial result. -/
theorem importance_sampling_degenerate (weights : List ℚ) (n_samples : ℕ)
    (draws : ℕ → ℚ) (hw : ∀ w ∈ weights, w = 0) :
    importance_sampling weights n_samples draws = Except.error SamplerError.dataError := by
  have hall : (weights.map (fun w => w / weights.sum)).all (fun p => p == 0) = true := by
    rw [List.all_eq_true]
    intro p hp
    obtain ⟨w, hwmem, rfl⟩ := List.mem_map.mp hp
    simp [hw w hwmem]
  simp only [importance_sampling, hall, if_true]

/-- C8 witness: two members with zero weight produce the DataError. -/
theorem importance_sampling_degenerate_witness :
    (∀ w ∈ [(0:ℚ), 0], w = 0) ∧
    importance_sampling [(0:ℚ), 0] 2 (fun _ => 0) = Except.error SamplerError.dataError :=
  ⟨fun w hw => by simpa using hw,
   importance_sampling_degenerate [(0:ℚ), 0] 2 (fun _ => 0)
     (fun w hw => by simpa using hw)⟩

/-- C10: frame property of compute_trajectory at the Python level: in the
store-passing model the caller's velocity arrays and axis arrays are
unchanged by the call.  The axis store is returned verbatim; the velocity
store is only ever extended (negation allocates fresh arrays), so every
index the caller held before the call still reads its original array; and
the returned trajectory agrees with the pure compute_trajectory on the
values the caller passed in. -/
theorem compute_trajectory_store_frame (point : Pt) (store2 : List Grid) (ivx ivy : ℕ)
    (store1 : List (List ℚ)) (ix iy : ℕ) (dt T : ℚ) (reverse : Bool) :
    ((compute_trajectory_store point store2 ivx ivy store1 ix iy dt T reverse).1.1).take
        store2.length = store2 ∧
    (compute_trajectory_store point store2 ivx ivy store1 ix iy dt T reverse).1.2 = store1 ∧
    (compute_trajectory_store point store2 ivx ivy store1 ix iy dt T reverse).2 =
      compute_trajectory point (readGrid store2 ivx) (readGrid store2 ivy)
        (store1.getD ix []) (store1.getD iy []) dt T reverse := by
  cases reverse with
  | false =>
    refine ⟨?_, rfl, rfl⟩
    exact List.take_length store2
  | true =>
    have h1 : readGrid (store2 ++
        [negGrid (readGrid store2 ivx), negGrid (readGrid store2 ivy)]) store2.length
        = negGrid (readGrid store2 ivx) := by
      unfold readGrid
      rw [List.getD_append_right store2 _ [] store2.length (le_refl _)]
      simp
    have h2 : readGrid (store2 ++
        [negGrid (readGrid store2 ivx), negGrid (readGrid store2 ivy)]) (store2.length + 1)
        = negGrid (readGrid store2 ivy) := by
      unfold readGrid
      rw [List.getD_append_right store2 _ [] (store2.length + 1) (by omega)]
      simp
    refine ⟨?_, rfl, ?_⟩
    · exact List.take_left store2 _
    · show compute_trajectory point
        (readGrid (store2 ++
          [negGrid (readGrid store2 ivx), negGrid (readGrid store2 ivy)]) store2.length)
        (readGrid (store2 ++
          [negGrid (readGrid store2 ivx), negGrid (readGrid store2 ivy)]) (store2.length + 1))
        (store1.getD ix []) (store1.getD iy []) dt T false =
        compute_trajectory point (readGrid store2 ivx) (readGrid store2 ivy)
          (store1.getD ix []) (store1.getD iy []) dt T true
      rw [h1, h2]
      rfl
